import Mathlib

/-!
Shallow embedding of the OCR extraction / search-index subsystem of the
PDF toolkit (file `src/core/pdf_ocr_extractor.py`, class `PDFOCRExtractor`).

Python strings are modelled as `List Char` (a Python `str` is a sequence of
code points, indexed by position).  The SQLite table `pdf_index` is modelled
as a `List DocumentRecord` in rowid order: an `INSERT` appends, and an
`ON CONFLICT ... DO UPDATE` rewrites the conflicting row in place, which is
exactly SQLite's behaviour (the rowid of the conflicting row is preserved).
The record-creation timestamp `created_at` is stored by the code as a local
time string "YYYY-MM-DD HH:MM:SS", whose lexicographic order coincides with
chronological order; it is modelled as a `Nat` supplied by the caller (the
code reads the wall clock).
-/

namespace PdfOcr

/-- A row of the SQLite table `pdf_index` (see `_ensure_db`,
`src/core/pdf_ocr_extractor.py` lines 312-337).  The surrogate `id` column is
not modelled: the row's position in the list plays its role.
`file_modified_at` is the nullable INTEGER column holding the source file's
mtime in nanoseconds. -/
structure DocumentRecord where
  file_path : String
  text_content : List Char
  page_count : Nat
  created_at : Nat
  file_modified_at : Option Int
  lang : String
deriving DecidableEq, Repr

/-- The persisted index: rows of `pdf_index` in rowid (insertion) order. -/
abbrev Index := List DocumentRecord

/-- The `SELECT ... WHERE file_path = ?` point lookup (used by `index_pdf` and
`_get_index_record`): the unique row with the given path, if any. -/
def getRecord (db : Index) (path : String) : Option DocumentRecord :=
  db.find? (fun r => r.file_path = path)

/-! ### Python string primitives -/

/-- Python `str.isspace` characters relevant here: the whitespace stripped by
`str.strip()` (space, tab, newline, carriage return, vertical tab, form feed). -/
def isPySpace (c : Char) : Bool :=
  c = ' ' || c = '\t' || c = '\n' || c = '\r' || c = '\x0b' || c = '\x0c'

/-- Python `str.strip()`: drop leading and trailing whitespace. -/
def pyStrip (s : List Char) : List Char :=
  ((s.dropWhile isPySpace).reverse.dropWhile isPySpace).reverse

/-- Python `str.lower` on a single code point: the character-wise fragment
of the full Unicode lowering.  Covered exactly: ASCII letters; the Latin-1
uppercase block U+00C0-U+00DE (excluding the multiplication sign U+00D7),
mapping down by 0x20; and the four code points outside Latin-1 whose Python
lowercase lands in ASCII or Latin-1 — U+0178 (Ÿ → ÿ), U+1E9E (ẞ → ß),
U+212A (KELVIN SIGN → k), U+212B (ANGSTROM SIGN → å).  Other scripts lower
within their own blocks and can never produce an ASCII or Latin-1
character, so they are left unchanged here; Python's length-changing folds
(e.g. U+0130 İ → "i" + combining dot) cannot be expressed by any
character-wise map and are outside the model.  Expressed on code points
(`Nat`) so that lowered strings never have to be rebuilt: the code lowers
both strings and then compares characters for equality, which — for a
character-wise mapping — is the same as comparing original characters under
`pyCharEqCI` below. -/
def pyLowerNat (n : Nat) : Nat :=
  if 65 ≤ n ∧ n ≤ 90 then n + 32
  else if 192 ≤ n ∧ n ≤ 222 ∧ n ≠ 215 then n + 32
  else if n = 0x178 then 0xFF
  else if n = 0x1E9E then 0xDF
  else if n = 0x212A then 0x6B
  else if n = 0x212B then 0xE5
  else n

/-- Case-insensitive character comparison as performed by
`text.lower().find(sanitized.lower())` in `search_keyword` (line 272). -/
def pyCharEqCI (a b : Char) : Bool :=
  pyLowerNat a.toNat = pyLowerNat b.toNat

/-- Predicate: `kw` is a case-insensitive (Python case folding) starting
segment of `t`. -/
def ciIsPrefix : List Char → List Char → Bool
  | [], _ => true
  | _ :: _, [] => false
  | k :: ks, c :: cs => pyCharEqCI k c && ciIsPrefix ks cs

/-- Python `text.lower().find(kw.lower())`: position of the first
case-insensitive occurrence of `kw` in `t`, `none` standing for `-1`. -/
def pyFindCI (kw : List Char) : List Char → Option Nat
  | [] => if ciIsPrefix kw [] then some 0 else none
  | c :: t2 =>
    if ciIsPrefix kw (c :: t2) then some 0
    else (pyFindCI kw t2).map (· + 1)

/-- Python `text.find(pat, start)` with exact character equality, restricted
to `start = 0` (`none` standing for `-1`). -/
def pyFindExact (pat : List Char) : List Char → Option Nat
  | [] => if pat.isPrefixOf ([] : List Char) then some 0 else none
  | c :: t2 =>
    if pat.isPrefixOf (c :: t2) then some 0
    else (pyFindExact pat t2).map (· + 1)

/-- Python `text.find(pat, start)`: first exact occurrence at index ≥ start. -/
def pyFindFrom (text pat : List Char) (start : Nat) : Option Nat :=
  (pyFindExact pat (text.drop start)).map (· + start)

/-- Python `text.rfind(pat, 0, stop)`: the largest `i` with
`i + pat.length ≤ stop` at which `pat` occurs in `text` (the occurrence must
lie entirely inside the slice `text[0:stop]`); `none` standing for `-1`. -/
def pyRFindBefore (text pat : List Char) (stop : Nat) : Option Nat :=
  ((List.range (stop + 1 - pat.length)).filter
    (fun i => pat.isPrefixOf (text.drop i))).getLast?

/-- Python `int(s)` on an already-stripped string: an optional sign followed
by a non-empty run of decimal digits; `none` models `ValueError`.
(PEP 515 underscore separators are not modelled; the inputs this code feeds
to `int` are plain digit runs produced by its own page markers.) -/
def pyParseInt (s : List Char) : Option Int :=
  match s with
  | [] => none
  | '+' :: rest =>
    if rest ≠ [] ∧ rest.all Char.isDigit then
      some (Int.ofNat (rest.foldl (fun acc c => acc * 10 + (c.toNat - 48)) 0))
    else none
  | '-' :: rest =>
    if rest ≠ [] ∧ rest.all Char.isDigit then
      some (-Int.ofNat (rest.foldl (fun acc c => acc * 10 + (c.toNat - 48)) 0))
    else none
  | _ =>
    if s.all Char.isDigit then
      some (Int.ofNat (s.foldl (fun acc c => acc * 10 + (c.toNat - 48)) 0))
    else none

/-! ### SQLite `LIKE` -/

/-- SQLite's default case folding: ASCII letters only ("SQLite only
understands upper/lower case for ASCII characters by default"). -/
def sqliteLowerNat (n : Nat) : Nat :=
  if 65 ≤ n ∧ n ≤ 90 then n + 32 else n

/-- Character equivalence used by SQLite `LIKE`. -/
def sqliteCharEq (a b : Char) : Bool :=
  sqliteLowerNat a.toNat = sqliteLowerNat b.toNat

/-- SQLite `t LIKE p` (no ESCAPE clause): `%` matches any run of characters,
`_` any single character, other pattern characters match under ASCII-only
case folding.  Structural recursion on the pattern: `%` tries every split of
the remaining text. -/
def likeMatch : List Char → List Char → Bool
  | [], t => t.isEmpty
  | p :: ps, t =>
    if p = '%' then
      (List.range (t.length + 1)).any (fun k => likeMatch ps (t.drop k))
    else
      match t with
      | [] => false
      | c :: t2 => (if p = '_' then true else sqliteCharEq p c) && likeMatch ps t2

/-- The `WHERE text_content LIKE ?` pre-filter of `search_keyword`
(lines 256-265): pattern `f"%{sanitized}%"`, keyword not escaped. -/
def likeContains (kw text : List Char) : Bool :=
  likeMatch ('%' :: (kw ++ ['%'])) text

/-- The `ORDER BY created_at DESC` step (used by `search_keyword`): stable insertion
sort, newest first.  SQLite leaves the relative order of equal keys
unspecified; the model keeps table order for ties. -/
def insertByCreatedDesc (r : DocumentRecord) : Index → Index
  | [] => [r]
  | x :: xs =>
    if x.created_at < r.created_at then r :: x :: xs
    else x :: insertByCreatedDesc r xs

/-- The index in `created_at`-descending order. -/
def orderByCreatedDesc (db : Index) : Index :=
  db.foldr insertByCreatedDesc []

/-! ### Snippets and page inference -/

/-- The ellipsis marker `"..."` used by `_build_snippet`. -/
def ellipsisMarker : List Char := ['.', '.', '.']

/-- Method `_build_snippet` (lines 426-434): the window
`text[max(0, position - context):min(len(text), position + keyword_len + context)]`
with newlines replaced by spaces, wrapped in `"..."` on each side that was
clipped.  `position - context` in `Nat` is exactly `max(0, position - context)`. -/
def buildSnippet (text : List Char) (position keywordLen contextChars : Nat) :
    List Char :=
  let start := position - contextChars
  let stop := min text.length (position + keywordLen + contextChars)
  let snippet := ((text.take stop).drop start).map
    (fun c => if c = '\n' then ' ' else c)
  (if 0 < start then ellipsisMarker else [])
    ++ snippet
    ++ (if stop < text.length then ellipsisMarker else [])

/-- The page-boundary marker `"=== Page "` scanned by `_infer_page_number`. -/
def pageMarker : List Char := ['=', '=', '=', ' ', 'P', 'a', 'g', 'e', ' ']

/-- Method `_infer_page_number` (lines 436-448): `rfind` the last `"=== Page "`
whose nine characters end at or before the match position; then `find` the
next `"==="`; strip and `int()`-parse what lies between; any failure along
the way yields page 1. -/
def inferPageNumber (text : List Char) (position : Nat) : Int :=
  match pyRFindBefore text pageMarker position with
  | none => 1
  | some markerPos =>
    match pyFindFrom text ['=', '=', '='] (markerPos + pageMarker.length) with
    | none => 1
    | some endMarker =>
      let numberStr := pyStrip ((text.take endMarker).drop (markerPos + pageMarker.length))
      match pyParseInt numberStr with
      | none => 1
      | some n => n

/-! ### Search -/

/-- A matched record returned by `search_keyword` (dataclass `SearchResult`,
lines 45-53).  The fixed relevance score `1.0` is modelled as `1 : Nat`. -/
structure SearchResult where
  file_path : String
  page : Int
  snippet : List Char
  keyword : List Char
  score : Nat
deriving DecidableEq, Repr

/-- Method `search_keyword` (lines 241-288).  An empty stripped keyword returns `[]`.
Otherwise the storage layer returns the rows whose text matches
`LIKE '%sanitized%'`, ordered by `created_at` descending, capped at `limit`;
for each row the Python layer re-finds the keyword case-insensitively
(rows where `find` returns `-1` are dropped by the `continue`) and builds a
`SearchResult`.  The `text_content or ""` null-guard is vacuous here because
the model's `text_content` is never NULL. -/
def search_keyword (db : Index) (keyword : List Char) (limit : Nat)
    (contextChars : Nat) : List SearchResult :=
  let sanitized := pyStrip keyword
  if sanitized.isEmpty then []
  else
    let rows := ((orderByCreatedDesc db).filter
      (fun r => likeContains sanitized r.text_content)).take limit
    rows.filterMap (fun r =>
      match pyFindCI sanitized r.text_content with
      | none => none
      | some position =>
        some { file_path := r.file_path
               page := inferPageNumber r.text_content position
               snippet := buildSnippet r.text_content position sanitized.length contextChars
               keyword := sanitized
               score := 1 })

/-! ### Indexing (upsert) -/

/-- Method `index_pdf` (lines 113-162).  `modified` models
`path.stat().st_mtime_ns if path.exists() else None`, an observation of the
filesystem at call time; `createdAt` models `datetime.now()`.  The action
string is `"updated"` when a row with this path already exists, `"inserted"`
otherwise, and the `INSERT ... ON CONFLICT(file_path) DO UPDATE` rewrites the
conflicting row in place (rowid preserved) or appends a fresh row.  The text
is truncated to 500000 characters (`text[:500_000]`). -/
def index_pdf (db : Index) (path : String) (text : List Char) (pageCount : Nat)
    (lang : String) (modified : Option Int) (createdAt : Nat) :
    Index × String :=
  let existing := getRecord db path
  let newRecord : DocumentRecord :=
    { file_path := path
      text_content := text.take 500000
      page_count := pageCount
      created_at := createdAt
      file_modified_at := modified
      lang := lang }
  match existing with
  | some _ =>
    (db.map (fun r => if r.file_path = path then newRecord else r), "updated")
  | none => (db ++ [newRecord], "inserted")

/-! ### Export -/

/-- One object of the JSON array written by `export_index`: the five selected
columns of a row, in table order.  The `json.dump(..., ensure_ascii=False)`
serialization itself is the Python standard library and is not re-modelled;
the payload list is the object of study. -/
structure ExportEntry where
  file_path : String
  text_content : List Char
  page_count : Nat
  created_at : Nat
  lang : String
deriving DecidableEq, Repr

/-- Method `export_index` (lines 290-307): `SELECT file_path, text_content,
page_count, created_at, lang FROM pdf_index` — note: no ORDER BY clause, so
the rows come back in table (rowid) order — then one JSON object per row. -/
def export_index (db : Index) : List ExportEntry :=
  db.map (fun r =>
    { file_path := r.file_path
      text_content := r.text_content
      page_count := r.page_count
      created_at := r.created_at
      lang := r.lang })

/-! ### Single-file OCR and its dependencies -/

/-- Availability of the four optional imports at the top of the module
(`fitz`/PyMuPDF, `pytesseract`, `PIL.Image`, `ocrmypdf`): each is `none`
after a failed import. -/
structure Deps where
  fitz : Bool
  pytesseract : Bool
  pil : Bool
  ocrmypdf : Bool
deriving DecidableEq, Repr

/-- The exceptions `ocr_single_pdf` can raise, tagged by Python class, each
carrying `str(exc)`.  `runtimeError` covers the tesseract-binary probe and
any failure inside the two strategies (rendering, recognition, unreadable
file). -/
inductive OcrErr where
  | fileNotFound (msg : String)
  | importError (msg : String)
  | runtimeError (msg : String)
deriving DecidableEq, Repr

/-- Python `str(exc)`: the message of the exception. -/
def OcrErr.message : OcrErr → String
  | .fileNotFound m => m
  | .importError m => m
  | .runtimeError m => m

/-- One PDF file as the batch sees it: its path, whether `Path.is_file()`
holds, its current mtime in nanoseconds, the cache entry `_load_cache` would
return for its current fingerprint (`none` on miss or corrupt cache), and the
outcome each recognition strategy would produce on it
(`_ocr_via_pytesseract` / `_ocr_via_ocrmypdf` minus their dependency
checks, which are modelled explicitly). -/
structure PdfFile where
  path : String
  is_file : Bool
  mtime_ns : Int
  cache : Option (List Char × Nat)
  pytessResult : Except OcrErr (List Char × Nat)
  ocrmypdfResult : Except OcrErr (List Char × Nat)
deriving Repr

/-- Method `_ensure_dependencies` (lines 339-345): PyMuPDF is always required;
with `require_ocr` the direct strategy's `pytesseract` and `Pillow` are also
required, in that order.  Returns the exception raised, if any. -/
def ensureDependencies (deps : Deps) (requireOcr : Bool) : Option OcrErr :=
  if !deps.fitz then some (.importError "PyMuPDF 未安裝")
  else if requireOcr && !deps.pytesseract then some (.importError "pytesseract 未安裝")
  else if requireOcr && !deps.pil then some (.importError "Pillow 未安裝")
  else none

/-- Method `ocr_single_pdf` (lines 80-111): reject a non-file path; check
dependencies with `require_ocr=True` (regardless of the selected backend);
serve from cache when enabled and present; otherwise run the selected
strategy — `_ocr_via_ocrmypdf` first re-checks its own `ocrmypdf` import.
The cache write-back (`_store_cache`) is a side effect on the cache store and
is not observable in the claims, so it is not threaded here. -/
def ocr_single_pdf (deps : Deps) (f : PdfFile) (useCache useOcrmypdf : Bool) :
    Except OcrErr (List Char × Nat) :=
  if !f.is_file then .error (.fileNotFound ("找不到 PDF 檔案：" ++ f.path))
  else
    match ensureDependencies deps true with
    | some e => .error e
    | none =>
      match (if useCache then f.cache else none) with
      | some entry => .ok entry
      | none =>
        if useOcrmypdf then
          if !deps.ocrmypdf then .error (.importError "ocrmypdf 未安裝")
          else f.ocrmypdfResult
        else f.pytessResult

/-! ### Batch orchestration -/

/-- Method `_needs_reindex` (lines 415-424): no record means reprocess; otherwise
compare the file's current mtime against the stored one.  The Python
`existing["file_modified_at"] or 0` maps both NULL and 0 to 0, i.e.
`Option.getD 0`; the column is INTEGER so the `int()` conversion never
fails on data this code wrote. -/
def needsReindex (f : PdfFile) (existing : Option DocumentRecord) : Bool :=
  match existing with
  | none => true
  | some r => f.mtime_ns > r.file_modified_at.getD 0

/-- Arguments of one `batch_ocr_folder` call that are fixed across the loop.
`now` models `datetime.now()` read inside `index_pdf`. -/
structure BatchCfg where
  lang : String
  force : Bool
  use_cache : Bool
  use_ocrmypdf : Bool
  now : Nat
deriving Repr

/-- What happened to one file of the batch; coincides with the terminal
progress event the loop emits for it (`"skip"`, `"success"` carrying the
upsert action, or `"error"` carrying `str(exc)`). -/
inductive FileOutcome where
  | skipped
  | indexed (action : String)
  | failed (msg : String)
deriving DecidableEq, Repr

/-- One iteration of the `batch_ocr_folder` loop (lines 198-236) for file
`f` against index `db`: the skip decision, then OCR, then upsert; any
exception from those steps becomes a `failed` outcome and leaves the index
untouched. -/
def processFile (deps : Deps) (cfg : BatchCfg) (db : Index) (f : PdfFile) :
    Index × FileOutcome :=
  let existing := if cfg.force then none else getRecord db f.path
  let needsOcr := cfg.force || needsReindex f existing
  if !needsOcr then (db, .skipped)
  else
    match ocr_single_pdf deps f cfg.use_cache cfg.use_ocrmypdf with
    | .error e => (db, .failed e.message)
    | .ok (text, pageCount) =>
      let (db2, action) := index_pdf db f.path text pageCount cfg.lang
        (if f.is_file then some f.mtime_ns else none) cfg.now
      (db2, .indexed action)

/-- The `stats` dictionary built by `batch_ocr_folder` (lines 187-195),
minus the wall-clock `duration`, which is timing, not data. -/
structure BatchStats where
  total : Nat
  indexed : Nat
  skipped : Nat
  updated : Nat
  errors : List (String × String)
deriving DecidableEq, Repr

/-- How one file's outcome updates the counters (lines 206-236): a skip
increments `skipped`; a successful upsert increments `indexed` (and
`updated` when the upsert reported `"updated"`); an exception appends
`{"file": str(path), "error": str(exc)}` to `errors`. -/
def stepStats (s : BatchStats) (f : PdfFile) : FileOutcome → BatchStats
  | .skipped => { s with skipped := s.skipped + 1 }
  | .indexed action =>
    { s with
      indexed := s.indexed + 1
      updated := s.updated + (if action = "updated" then 1 else 0) }
  | .failed msg => { s with errors := s.errors ++ [(f.path, msg)] }

/-- The loop of `batch_ocr_folder`, folding index state and statistics over
the sorted file list. -/
def batchLoop (deps : Deps) (cfg : BatchCfg) :
    Index × BatchStats → List PdfFile → Index × BatchStats
  | st, [] => st
  | (db, s), f :: rest =>
    let (db2, outcome) := processFile deps cfg db f
    batchLoop deps cfg (db2, stepStats s f outcome) rest

/-- Method `batch_ocr_folder` (lines 164-239) on the sorted list of `*.pdf` files
the folder glob produced: every file is processed in order, no exception
escapes (each per-file exception is converted into an `errors` entry by
`processFile`), and the final statistics are returned with the updated
index. -/
def batch_ocr_folder (deps : Deps) (cfg : BatchCfg) (db : Index)
    (pdfFiles : List PdfFile) : Index × BatchStats :=
  batchLoop deps cfg
    (db,
      { total := pdfFiles.length
        indexed := 0
        skipped := 0
        updated := 0
        errors := [] })
    pdfFiles

/-- Predicate: `kw` is a starting segment of `t` under SQLite ASCII-only case
folding; the form `LIKE '%kw%'` matching takes for a wildcard-free `kw`. -/
def sqlCiIsPrefix : List Char → List Char → Bool
  | [], _ => true
  | _ :: _, [] => false
  | k :: ks, c :: cs => sqliteCharEq k c && sqlCiIsPrefix ks cs

/-! ### Concrete example data used by counterexamples and witnesses -/

/-- The page-marker text of the spec's page-inference test, exactly as the
direct strategy would synthesize it. -/
def exampleText : List Char :=
  "=== Page 1 ===\nfoo\n=== Page 2 ===\nbar baz".data

/-- A one-record index holding `exampleText`. -/
def exampleDb : Index :=
  [{ file_path := "a.pdf", text_content := exampleText, page_count := 2,
     created_at := 5, file_modified_at := some 1, lang := "chi_tra+eng" }]

/-- A one-record index whose text contains the keyword "café" only up to
non-ASCII case folding. -/
def accentDb : Index :=
  [{ file_path := "c.pdf", text_content := "CAFÉ".data, page_count := 1,
     created_at := 1, file_modified_at := some 1, lang := "eng" }]

/-- An index reached by two inserts: "a.pdf" at time 1, then "b.pdf" at
time 2 (table order = insertion order). -/
def twoInsertDb : Index :=
  (index_pdf (index_pdf [] "a.pdf" "ta".data 1 "eng" (some 5) 1).1
    "b.pdf" "tb".data 2 "eng" (some 6) 2).1

/-- Import state with the recognition dependency `pytesseract` absent. -/
def depsNoTess : Deps :=
  { fitz := true, pytesseract := false, pil := true, ocrmypdf := true }

/-- Import state with everything available. -/
def depsAll : Deps :=
  { fitz := true, pytesseract := true, pil := true, ocrmypdf := true }

/-- A readable PDF file on which both strategies succeed. -/
def okFile (p : String) : PdfFile :=
  { path := p, is_file := true, mtime_ns := 10, cache := none,
    pytessResult := .ok ("=== Page 1 ===\nhi\n".data, 1),
    ocrmypdfResult := .ok ("=== Page 1 ===\nhi\n".data, 1) }

/-- An unreadable entry: `Path.is_file()` is false, so `ocr_single_pdf`
raises `FileNotFoundError`. -/
def badFile (p : String) : PdfFile :=
  { path := p, is_file := false, mtime_ns := 10, cache := none,
    pytessResult := .error (.runtimeError "unused"),
    ocrmypdfResult := .error (.runtimeError "unused") }

/-- A batch configuration with `force` unset. -/
def cfgNoForce : BatchCfg :=
  { lang := "chi_tra+eng", force := false, use_cache := true,
    use_ocrmypdf := false, now := 7 }

/-- A batch configuration with `force` set. -/
def cfgForce : BatchCfg :=
  { lang := "chi_tra+eng", force := true, use_cache := true,
    use_ocrmypdf := false, now := 7 }

/-- A record whose stored modification time is 5 ns. -/
def staleRecord : DocumentRecord :=
  { file_path := "w.pdf", text_content := "t".data, page_count := 1,
    created_at := 3, file_modified_at := some 5, lang := "eng" }

/-- An index holding only `staleRecord`. -/
def staleDb : Index := [staleRecord]

/-- The file behind `staleRecord`, with an unchanged modification time. -/
def staleFile : PdfFile :=
  { path := "w.pdf", is_file := true, mtime_ns := 5, cache := none,
    pytessResult := .ok ("t".data, 1), ocrmypdfResult := .ok ("t".data, 1) }

/-- Import state with only `Pillow` absent. -/
def depsNoPil : Deps :=
  { fitz := true, pytesseract := true, pil := false, ocrmypdf := true }

/-- Import state with only `ocrmypdf` absent. -/
def depsNoMyPdf : Deps :=
  { fitz := true, pytesseract := true, pil := true, ocrmypdf := false }

/-- A file whose current fingerprint has a cache entry. -/
def cachedFile : PdfFile :=
  { path := "k.pdf", is_file := true, mtime_ns := 1,
    cache := some ("cached text".data, 4),
    pytessResult := .error (.runtimeError "backend must not run"),
    ocrmypdfResult := .error (.runtimeError "backend must not run") }

/-- A record with plain ASCII text containing "Foo". -/
def asciiRecord : DocumentRecord :=
  { file_path := "d.pdf", text_content := "hello Foo world".data,
    page_count := 1, created_at := 3, file_modified_at := some 1,
    lang := "eng" }

/-- A one-record, already-sorted index with plain ASCII text. -/
def asciiDb : Index := [asciiRecord]

/-- A record whose only text is the KELVIN SIGN U+212A, whose Python
lowercase is the ASCII letter k. -/
def kelvinDb : Index :=
  [{ file_path := "kelvin.pdf", text_content := [Char.ofNat 0x212A],
     page_count := 1, created_at := 2, file_modified_at := some 1,
     lang := "eng" }]

/-- A text whose nearest "=== Page " occurrence before the match is
malformed: the well-formed marker `=== Page 2 ===` is followed by
`A === Page B`, and the match is the final `B` at position 26. -/
def pageCexText : List Char := "=== Page 2 ===\nA === Page B".data

/-- A one-record index holding `pageCexText`. -/
def pageCexDb : Index :=
  [{ file_path := "m.pdf", text_content := pageCexText, page_count := 1,
     created_at := 4, file_modified_at := some 1, lang := "eng" }]

/-- The single result `search_keyword` returns for "baz" on `exampleDb`:
the whole text (shorter than the window) with newlines collapsed. -/
def bazResult : SearchResult :=
  { file_path := "a.pdf", page := 2,
    snippet := exampleText.map (fun c => if c = '\n' then ' ' else c),
    keyword := "baz".data, score := 1 }

end PdfOcr

namespace PdfOcr

/-! ## Helper lemmas -/

theorem getRecord_append (db1 db2 : Index) (path : String) :
    getRecord (db1 ++ db2) path = (getRecord db1 path).or (getRecord db2 path) := by
  simp [getRecord, List.find?_append]

theorem filter_path_eq_nil_of_getRecord_none (db : Index) (path : String)
    (h : getRecord db path = none) :
    db.filter (fun r => r.file_path = path) = [] := by
  rw [List.filter_eq_nil_iff]
  intro r hr
  have := List.find?_eq_none.mp h r hr
  simpa using this

theorem map_replace_id_of_getRecord_none (db : Index) (path : String)
    (nr : DocumentRecord) (h : getRecord db path = none) :
    db.map (fun r => if r.file_path = path then nr else r) = db := by
  induction db with
  | nil => rfl
  | cons r rest ih =>
    have hr : ¬ (r.file_path = path) := by
      have := List.find?_eq_none.mp h r (by simp)
      simpa using this
    have hrest : getRecord rest path = none := by
      rw [getRecord, List.find?_eq_none]
      intro x hx
      exact List.find?_eq_none.mp h x (by simp [hx])
    simp [hr, ih hrest]

/-! ## C3 — upsert idempotence and uniqueness -/

/-- C3: starting from an index with no record for `path`, indexing the same
`(path, text, page_count, language)` twice leaves exactly one record for
that path; the second call fully replaces text (truncated), page count,
timestamp and language while keeping the path key; the first call returns
`"inserted"` and the second `"updated"`. -/
theorem upsert_idempotent_unique (db : Index) (path : String)
    (text : List Char) (pageCount : Nat) (lang : String) (modified : Option Int)
    (t1 t2 : Nat) (h : getRecord db path = none) :
    (index_pdf db path text pageCount lang modified t1).2 = "inserted"
    ∧ (index_pdf (index_pdf db path text pageCount lang modified t1).1
        path text pageCount lang modified t2).2 = "updated"
    ∧ (((index_pdf (index_pdf db path text pageCount lang modified t1).1
        path text pageCount lang modified t2).1).filter
          (fun r => r.file_path = path)).length = 1
    ∧ getRecord ((index_pdf (index_pdf db path text pageCount lang modified t1).1
        path text pageCount lang modified t2).1) path =
      some { file_path := path, text_content := text.take 500000,
             page_count := pageCount, created_at := t2,
             file_modified_at := modified, lang := lang } := by
  have h1 : index_pdf db path text pageCount lang modified t1 =
      (db ++ [{ file_path := path, text_content := text.take 500000,
                page_count := pageCount, created_at := t1,
                file_modified_at := modified, lang := lang }], "inserted") := by
    simp [index_pdf, h]
  have hget1 : getRecord (index_pdf db path text pageCount lang modified t1).1 path =
      some { file_path := path, text_content := text.take 500000,
             page_count := pageCount, created_at := t1,
             file_modified_at := modified, lang := lang } := by
    rw [h1, getRecord_append, h]
    simp [getRecord]
  have h2 : index_pdf (index_pdf db path text pageCount lang modified t1).1
      path text pageCount lang modified t2 =
      (db ++ [{ file_path := path, text_content := text.take 500000,
                page_count := pageCount, created_at := t2,
                file_modified_at := modified, lang := lang }], "updated") := by
    rw [index_pdf, hget1]
    simp only [h1]
    rw [List.map_append, map_replace_id_of_getRecord_none db path _ h]
    simp
  refine ⟨by rw [h1], by rw [h2], ?_, ?_⟩
  · rw [h2]
    simp [List.filter_append, filter_path_eq_nil_of_getRecord_none db path h]
  · rw [h2]
    show getRecord (db ++ [_]) path = _
    rw [getRecord_append, h]
    simp [getRecord]

/-- C3 witness: concrete double upsert into an empty index. -/
theorem upsert_idempotent_unique_witness :
    (index_pdf [] "a.pdf" "hi".data 3 "eng" (some 4) 1).2 = "inserted"
    ∧ (index_pdf (index_pdf [] "a.pdf" "hi".data 3 "eng" (some 4) 1).1
        "a.pdf" "hi".data 3 "eng" (some 4) 2).2 = "updated"
    ∧ (((index_pdf (index_pdf [] "a.pdf" "hi".data 3 "eng" (some 4) 1).1
        "a.pdf" "hi".data 3 "eng" (some 4) 2).1).filter
          (fun r => r.file_path = "a.pdf")).length = 1
    ∧ getRecord ((index_pdf (index_pdf [] "a.pdf" "hi".data 3 "eng" (some 4) 1).1
        "a.pdf" "hi".data 3 "eng" (some 4) 2).1) "a.pdf" =
      some { file_path := "a.pdf", text_content := "hi".data.take 500000,
             page_count := 3, created_at := 2,
             file_modified_at := some 4, lang := "eng" } :=
  upsert_idempotent_unique [] "a.pdf" "hi".data 3 "eng" (some 4) 1 2 rfl

/-! ## C8 — export round-trip and ordering -/

/-- C8 (amended): `export_index` serializes the index in table (rowid,
i.e. insertion) order, one entry per record with the five selected fields;
the payload has the same number of entries as the index and matching
`file_path`/`page_count` entrywise.  (The JSON writing itself — UTF-8,
`ensure_ascii=False` — is the Python standard library and is outside the
model.) -/
theorem export_index_roundtrip (db : Index) :
    (export_index db).length = db.length
    ∧ List.Forall₂ (fun (e : ExportEntry) (r : DocumentRecord) =>
        e.file_path = r.file_path ∧ e.page_count = r.page_count)
      (export_index db) db := by
  refine ⟨by simp [export_index], ?_⟩
  induction db with
  | nil => simp [export_index]
  | cons r rest ih =>
    simp only [export_index, List.map_cons]
    exact List.Forall₂.cons ⟨rfl, rfl⟩ ih

/-- C8 counterexample: on the index reached by inserting "a.pdf" at time 1
and then "b.pdf" at time 2, the export payload is in insertion order
`[1, 2]`, which is not ordered by record creation time descending. -/
theorem export_index_not_created_desc :
    (export_index twoInsertDb).map (fun e => e.created_at) = [1, 2]
    ∧ ¬ List.Pairwise (fun a b : Nat => b ≤ a)
        ((export_index twoInsertDb).map (fun e => e.created_at)) := by
  decide

/-! ## C9 — batch statistics invariant -/

/-- Each loop iteration moves exactly one file into exactly one of the
`indexed`, `skipped`, `errors` counters, never touches `total`, and bumps
`updated` only together with `indexed`. -/
theorem batchLoop_counts (deps : Deps) (cfg : BatchCfg) :
    ∀ (files : List PdfFile) (db : Index) (s : BatchStats),
    ((batchLoop deps cfg (db, s) files).2.indexed
      + (batchLoop deps cfg (db, s) files).2.skipped
      + (batchLoop deps cfg (db, s) files).2.errors.length
      = s.indexed + s.skipped + s.errors.length + files.length)
    ∧ (batchLoop deps cfg (db, s) files).2.total = s.total
    ∧ (batchLoop deps cfg (db, s) files).2.updated + s.indexed
        ≤ s.updated + (batchLoop deps cfg (db, s) files).2.indexed := by
  intro files
  induction files with
  | nil => intro db s; simp [batchLoop]
  | cons f rest ih =>
    intro db s
    rcases hpf : processFile deps cfg db f with ⟨db2, outcome⟩
    have hstep : batchLoop deps cfg (db, s) (f :: rest)
        = batchLoop deps cfg (db2, stepStats s f outcome) rest := by
      simp [batchLoop, hpf]
    rw [hstep]
    obtain ⟨ih1, ih2, ih3⟩ := ih db2 (stepStats s f outcome)
    cases outcome with
    | skipped =>
      simp [stepStats] at ih1 ih2 ih3 ⊢
      exact ⟨by omega, ih2, by omega⟩
    | indexed action =>
      by_cases ha : action = "updated" <;>
      · simp [stepStats, ha] at ih1 ih2 ih3 ⊢
        exact ⟨by omega, ih2, by omega⟩
    | failed msg =>
      simp [stepStats] at ih1 ih2 ih3 ⊢
      exact ⟨by omega, ih2, by omega⟩

/-- C9: for every completed batch over `files`, the returned statistics
satisfy `indexed + skipped + len(errors) = total = len(files)` and
`updated ≤ indexed`: each file lands in exactly one of the three buckets. -/
theorem batch_stats_partition (deps : Deps) (cfg : BatchCfg) (db : Index)
    (files : List PdfFile) :
    (batch_ocr_folder deps cfg db files).2.indexed
      + (batch_ocr_folder deps cfg db files).2.skipped
      + (batch_ocr_folder deps cfg db files).2.errors.length
      = (batch_ocr_folder deps cfg db files).2.total
    ∧ (batch_ocr_folder deps cfg db files).2.total = files.length
    ∧ (batch_ocr_folder deps cfg db files).2.updated
        ≤ (batch_ocr_folder deps cfg db files).2.indexed := by
  obtain ⟨h1, h2, h3⟩ := batchLoop_counts deps cfg files db
    { total := files.length, indexed := 0, skipped := 0, updated := 0, errors := [] }
  unfold batch_ocr_folder
  simp at h1 h2 h3
  exact ⟨by omega, by omega, by omega⟩

/-! ## C2 — staleness monotonicity -/

theorem processFile_not_skipped_of_needs (deps : Deps) (cfg : BatchCfg)
    (db : Index) (f : PdfFile)
    (h : (cfg.force
      || needsReindex f (if cfg.force then none else getRecord db f.path)) = true) :
    (processFile deps cfg db f).2 ≠ FileOutcome.skipped := by
  unfold processFile
  simp only [h, Bool.not_true]
  rcases hocr : ocr_single_pdf deps f cfg.use_cache cfg.use_ocrmypdf with e | v
  · simp
  · rcases v with ⟨t, p⟩
    rcases hidx : index_pdf db f.path t p cfg.lang
      (if f.is_file then some f.mtime_ns else none) cfg.now with ⟨db2, a⟩
    simp [hidx]

/-- C2: with `force` unset and an existing record whose stored modification
time is `m`, the per-file step skips (emitting the `skip` event) exactly
when the file's current mtime is not strictly greater than `m`; a file with
no record is always reprocessed; with `force` set every file is
reprocessed. -/
theorem staleness_monotonic (deps : Deps) (cfg : BatchCfg) (db : Index)
    (f : PdfFile) :
    (∀ r m, cfg.force = false → getRecord db f.path = some r →
      r.file_modified_at = some m →
      ((processFile deps cfg db f).2 = FileOutcome.skipped ↔ ¬ (m < f.mtime_ns)))
    ∧ (cfg.force = false → getRecord db f.path = none →
        (processFile deps cfg db f).2 ≠ FileOutcome.skipped)
    ∧ (cfg.force = true →
        (processFile deps cfg db f).2 ≠ FileOutcome.skipped) := by
  refine ⟨?_, ?_, ?_⟩
  · intro r m hf hr hm
    by_cases hlt : m < f.mtime_ns
    · refine iff_of_false ?_ (not_not_intro hlt)
      apply processFile_not_skipped_of_needs
      rw [hf]
      simp [needsReindex, hr, hm]
      exact hlt
    · have hneeds : (cfg.force
          || needsReindex f (if cfg.force then none else getRecord db f.path)) = false := by
        rw [hf]
        simp [needsReindex, hr, hm]
        omega
      have hskip : processFile deps cfg db f = (db, FileOutcome.skipped) := by
        unfold processFile
        simp [hneeds]
      exact iff_of_true (by rw [hskip]) hlt
  · intro hf hr
    apply processFile_not_skipped_of_needs
    rw [hf]
    simp [needsReindex, hr]
  · intro hf
    apply processFile_not_skipped_of_needs
    rw [hf]
    simp

/-- C2 witness: a file whose mtime equals the stored 5 ns is skipped. -/
theorem staleness_monotonic_witness :
    (processFile depsAll cfgNoForce staleDb staleFile).2 = FileOutcome.skipped :=
  ((staleness_monotonic depsAll cfgNoForce staleDb staleFile).1
    staleRecord 5 rfl (by decide) rfl).mpr (by decide)

/-! ## C10 — implicit dependency coupling of the pipeline backend -/

/-- C10: `ocr_single_pdf` requires the direct-strategy dependencies
(`pytesseract`, `Pillow`) on every call — even with `use_ocrmypdf` selected
and even when the result would come entirely from the cache — raising a
dependency-missing `ImportError`; with those present, a cache hit is served
without consulting `ocrmypdf`, whose own import is checked only after the
cache lookup, inside the strategy. -/
theorem ocr_dependency_coupling :
    (∀ (deps : Deps) (f : PdfFile) (uc uo : Bool), f.is_file = true →
      deps.fitz = true → deps.pytesseract = false →
      ocr_single_pdf deps f uc uo = .error (.importError "pytesseract 未安裝"))
    ∧ (∀ (deps : Deps) (f : PdfFile) (uc uo : Bool), f.is_file = true →
      deps.fitz = true → deps.pytesseract = true → deps.pil = false →
      ocr_single_pdf deps f uc uo = .error (.importError "Pillow 未安裝"))
    ∧ (∀ (deps : Deps) (f : PdfFile) (uo : Bool) (entry : List Char × Nat),
      f.is_file = true → deps.fitz = true → deps.pytesseract = true →
      deps.pil = true → f.cache = some entry →
      ocr_single_pdf deps f true uo = .ok entry)
    ∧ (∀ (deps : Deps) (f : PdfFile) (uc : Bool), f.is_file = true →
      deps.fitz = true → deps.pytesseract = true → deps.pil = true →
      (if uc then f.cache else none) = none → deps.ocrmypdf = false →
      ocr_single_pdf deps f uc true = .error (.importError "ocrmypdf 未安裝")) := by
  refine ⟨?_, ?_, ?_, ?_⟩
  · intro deps f uc uo hif hfz htess
    simp [ocr_single_pdf, ensureDependencies, hif, hfz, htess]
  · intro deps f uc uo hif hfz htess hpil
    simp [ocr_single_pdf, ensureDependencies, hif, hfz, htess, hpil]
  · intro deps f uo entry hif hfz htess hpil hc
    simp [ocr_single_pdf, ensureDependencies, hif, hfz, htess, hpil, hc]
  · intro deps f uc hif hfz htess hpil hc hmy
    simp [ocr_single_pdf, ensureDependencies, hif, hfz, htess, hpil, hc, hmy]

/-- C10 witness: the four coupling facts at concrete imports and files. -/
theorem ocr_dependency_coupling_witness :
    ocr_single_pdf depsNoTess cachedFile true true
      = .error (.importError "pytesseract 未安裝")
    ∧ ocr_single_pdf depsNoPil cachedFile true true
      = .error (.importError "Pillow 未安裝")
    ∧ ocr_single_pdf depsNoMyPdf cachedFile true true
      = .ok ("cached text".data, 4)
    ∧ ocr_single_pdf depsNoMyPdf (okFile "a.pdf") true true
      = .error (.importError "ocrmypdf 未安裝") :=
  ⟨ocr_dependency_coupling.1 depsNoTess cachedFile true true rfl rfl rfl,
   ocr_dependency_coupling.2.1 depsNoPil cachedFile true true rfl rfl rfl rfl,
   ocr_dependency_coupling.2.2.1 depsNoMyPdf cachedFile true
     ("cached text".data, 4) rfl rfl rfl rfl rfl,
   ocr_dependency_coupling.2.2.2 depsNoMyPdf (okFile "a.pdf") true
     rfl rfl rfl rfl rfl rfl⟩


/-! ## C6 — page inference -/

theorem isPySpace_false_of_digit (c : Char) (h : c.isDigit = true) :
    isPySpace c = false := by
  by_contra hne
  have hsp : isPySpace c = true := by
    cases hh : isPySpace c
    · exact absurd hh hne
    · rfl
  simp [isPySpace] at hsp
  rcases hsp with ((((h1 | h1) | h1) | h1) | h1) | h1 <;> subst h1 <;>
    exact absurd h (by decide)

theorem dropWhile_space_of_digits (l : List Char)
    (h : ∀ x ∈ l, x.isDigit = true) : l.dropWhile isPySpace = l := by
  cases l with
  | nil => rfl
  | cons x xs =>
    rw [List.dropWhile_cons, isPySpace_false_of_digit x (h x (by simp))]
    simp

theorem pyStrip_digits_space (digits : List Char) (hne : digits ≠ [])
    (hall : ∀ d ∈ digits, d.isDigit = true) :
    pyStrip (digits ++ [' ']) = digits := by
  unfold pyStrip
  have h1 : (digits ++ [' ']).dropWhile isPySpace = digits ++ [' '] := by
    cases digits with
    | nil => exact absurd rfl hne
    | cons d ds =>
      rw [List.cons_append, List.dropWhile_cons,
        isPySpace_false_of_digit d (hall d (by simp))]
      simp
  rw [h1]
  have h2 : (digits ++ [' ']).reverse = ' ' :: digits.reverse := by simp
  rw [h2, List.dropWhile_cons]
  rw [show isPySpace ' ' = true from rfl]
  rw [if_pos rfl]
  rw [dropWhile_space_of_digits digits.reverse
    (fun x hx => hall x (List.mem_reverse.mp hx))]
  exact List.reverse_reverse digits

theorem findExact_after_digits (rest : List Char) :
    ∀ (digits : List Char), (∀ d ∈ digits, d.isDigit = true) →
    pyFindExact ['=', '=', '='] (digits ++ ' ' :: '=' :: '=' :: '=' :: rest)
      = some (digits.length + 1) := by
  intro digits
  induction digits with
  | nil =>
    intro _
    simp [pyFindExact, List.isPrefixOf]
  | cons d ds ih =>
    intro hall
    have hd := hall d (by simp)
    have hdne : ('=' == d) = false := by
      rw [beq_eq_false_iff_ne]
      intro he
      rw [← he] at hd
      exact absurd hd (by decide)
    rw [List.cons_append]
    simp only [pyFindExact]
    rw [if_neg (by simp [List.isPrefixOf, hdne])]
    rw [ih (fun x hx => hall x (by simp [hx]))]
    simp

theorem take_append_cons_len {α : Type} (ds : List α) (x : α) (ys : List α) :
    (ds ++ x :: ys).take (ds.length + 1) = ds ++ [x] := by
  induction ds with
  | nil => simp
  | cons d ds2 ih => simp [List.take_succ_cons, ih]

/-- C6 (amended): the backward scan targets the nearest occurrence of the
nine characters `"=== Page "` ending at or before the match position — not
necessarily a well-formed marker.  Concretely, on the spec text "baz"
reports page 2 and "foo" page 1; when no occurrence precedes the match the
page defaults to 1; and when the nearest occurrence is well-formed — digit
characters followed by `" ==="` — the inferred page is the parsed digit
value.  A malformed nearest occurrence can shadow an earlier well-formed
marker (see the counterexample). -/
theorem page_inference :
    ((search_keyword exampleDb "baz".data 20 80).map (fun r => r.page) = [2]
      ∧ (search_keyword exampleDb "foo".data 20 80).map (fun r => r.page) = [1])
    ∧ (∀ (text : List Char) (position : Nat),
        (∀ i, i + pageMarker.length ≤ position →
          pageMarker.isPrefixOf (text.drop i) = false) →
        inferPageNumber text position = 1)
    ∧ (∀ (text : List Char) (position i : Nat) (digits rest : List Char)
        (n : Int),
        pyRFindBefore text pageMarker position = some i →
        digits ≠ [] →
        (∀ d ∈ digits, d.isDigit = true) →
        text.drop (i + pageMarker.length)
          = digits ++ ' ' :: '=' :: '=' :: '=' :: rest →
        pyParseInt digits = some n →
        inferPageNumber text position = n) := by
  refine ⟨⟨by decide, by decide⟩, ?_, ?_⟩
  · intro text position h
    have hfil : (List.range (position + 1 - pageMarker.length)).filter
        (fun i => pageMarker.isPrefixOf (text.drop i)) = [] := by
      rw [List.filter_eq_nil_iff]
      intro i hi
      rw [List.mem_range] at hi
      have h9 : pageMarker.length = 9 := rfl
      simp [h i (by omega)]
    unfold inferPageNumber pyRFindBefore
    rw [hfil]
    rfl
  · intro text position i digits rest n hfind hdne hdig hdecomp hparse
    have hfindeq : pyFindFrom text ['=', '=', '='] (i + pageMarker.length)
        = some (digits.length + 1 + (i + pageMarker.length)) := by
      unfold pyFindFrom
      rw [hdecomp, findExact_after_digits rest digits hdig]
      rfl
    have hslice : (text.take (digits.length + 1 + (i + pageMarker.length))).drop
        (i + pageMarker.length) = digits ++ [' '] := by
      rw [List.drop_take, hdecomp]
      rw [show digits.length + 1 + (i + pageMarker.length)
          - (i + pageMarker.length) = digits.length + 1 from by omega]
      exact take_append_cons_len digits ' ' _
    unfold inferPageNumber
    rw [hfind]
    dsimp only
    rw [hfindeq]
    dsimp only
    rw [hslice, pyStrip_digits_space digits hdne hdig, hparse]

/-- C6 counterexample: on `"=== Page 2 ===\nA === Page B"` the
case-insensitive match for "B" is at position 26; the well-formed marker
`=== Page 2 ===` precedes it (so the nearest well-formed marker has N = 2),
yet the backward scan stops at the nearer malformed occurrence of
`"=== Page "` at index 17, finds no closing `"==="`, and the search reports
page 1 — refuting the nearest-marker reading of the claim. -/
theorem page_inference_nearest_marker_cex :
    pyFindCI (pyStrip "B".data) pageCexText = some 26
    ∧ ("=== Page 2 ===".data).isPrefixOf pageCexText = true
    ∧ pyRFindBefore pageCexText pageMarker 26 = some 17
    ∧ inferPageNumber pageCexText 26 = 1
    ∧ (search_keyword pageCexDb "B".data 20 80).map (fun r => r.page) = [1] := by
  decide

/-- C6 witness: the default conjunct on a marker-free text, and the
well-formed conjunct at the "baz" match of the spec text (marker at 19,
digits "2", page 2). -/
theorem page_inference_witness :
    inferPageNumber ("hello".data) 3 = 1
    ∧ inferPageNumber exampleText 38 = 2 := by
  constructor
  · apply page_inference.2.1
    intro i hi
    exfalso
    have h9 : pageMarker.length = 9 := rfl
    omega
  · exact page_inference.2.2 exampleText 38 19 ['2'] ("\nbar baz".data) 2
      (by decide) (by decide) (by decide) (by decide) (by decide)

/-! ## C7 — search snippet bounds -/

theorem ciIsPrefix_length : ∀ (kw u : List Char),
    ciIsPrefix kw u = true → kw.length ≤ u.length
  | [], u, _ => by simp
  | _ :: _, [], h => by simp [ciIsPrefix] at h
  | k :: ks, c :: cs, h => by
    simp only [ciIsPrefix, Bool.and_eq_true] at h
    have := ciIsPrefix_length ks cs h.2
    simp only [List.length_cons]
    omega

theorem pyFindCI_some (kw : List Char) : ∀ (t : List Char) (pos : Nat),
    pyFindCI kw t = some pos →
    pos ≤ t.length ∧ ciIsPrefix kw (t.drop pos) = true
  | [], pos, h => by
    by_cases hp : ciIsPrefix kw []
    · simp only [pyFindCI, if_pos hp] at h
      obtain rfl : (0 : Nat) = pos := Option.some.inj h
      exact ⟨Nat.zero_le _, hp⟩
    · simp only [pyFindCI, if_neg hp] at h
      exact absurd h (by simp)
  | c :: t2, pos, h => by
    by_cases hp : ciIsPrefix kw (c :: t2)
    · simp only [pyFindCI, if_pos hp] at h
      obtain rfl : (0 : Nat) = pos := Option.some.inj h
      exact ⟨Nat.zero_le _, hp⟩
    · simp only [pyFindCI, if_neg hp] at h
      rcases hrec : pyFindCI kw t2 with _ | q
      · rw [hrec] at h
        exact absurd h (by simp)
      · rw [hrec] at h
        obtain rfl : q + 1 = pos := by simpa using h
        obtain ⟨hle, hpre⟩ := pyFindCI_some kw t2 q hrec
        refine ⟨by simp only [List.length_cons]; omega, ?_⟩
        simpa using hpre

theorem collapse_no_newline (l : List Char) :
    '\n' ∉ l.map (fun c => if c = '\n' then ' ' else c) := by
  intro h
  obtain ⟨a, _, ha⟩ := List.mem_map.mp h
  by_cases hc : a = '\n'
  · rw [if_pos hc] at ha
    exact absurd ha (by decide)
  · rw [if_neg hc] at ha
    exact hc ha

theorem buildSnippet_length (text : List Char) (pos klen c : Nat) :
    (buildSnippet text pos klen c).length ≤ 2 * c + klen + 6 := by
  simp only [buildSnippet]
  split_ifs <;>
    simp [ellipsisMarker, List.length_take, List.length_drop] <;> omega

theorem buildSnippet_no_newline (text : List Char) (pos klen c : Nat) :
    '\n' ∉ buildSnippet text pos klen c := by
  simp only [buildSnippet]
  intro h
  rcases List.mem_append.mp h with h1 | h2
  · rcases List.mem_append.mp h1 with ha | hb
    · split_ifs at ha
      · exact absurd ha (by decide)
      · exact absurd ha (by simp)
    · exact collapse_no_newline _ hb
  · split_ifs at h2
    · exact absurd h2 (by decide)
    · exact absurd h2 (by simp)

theorem buildSnippet_eq_window (text : List Char) (pos klen c : Nat) :
    buildSnippet text pos klen c =
      (if c < pos then ellipsisMarker else [])
      ++ ((text.take (min text.length (pos + klen + c))).drop (pos - c)).map
          (fun ch => if ch = '\n' then ' ' else ch)
      ++ (if pos + klen + c < text.length then ellipsisMarker else []) := by
  have e1 : (0 < pos - c) ↔ (c < pos) := by omega
  have e2 : (min text.length (pos + klen + c) < text.length)
      ↔ (pos + klen + c < text.length) := by omega
  simp only [buildSnippet]
  rw [if_congr e1 rfl rfl, if_congr e2 rfl rfl]

/-- C7: every snippet returned by a search with `context_chars = c` is the
clipped window around the match with newlines collapsed to spaces, its
length is at most `2c + len(keyword) + 2 * len("...")`, it contains no
newline, and it carries the `"..."` marker on exactly the clipped sides. -/
theorem search_snippet_bounds (db : Index) (kw : List Char) (limit c : Nat)
    (res : SearchResult) (h : res ∈ search_keyword db kw limit c) :
    res.snippet.length ≤ 2 * c + (pyStrip kw).length + 6
    ∧ '\n' ∉ res.snippet
    ∧ ∃ (text : List Char) (pos : Nat),
        pos + (pyStrip kw).length ≤ text.length
        ∧ res.snippet =
          (if c < pos then ellipsisMarker else [])
          ++ ((text.take (min text.length (pos + (pyStrip kw).length + c))).drop
              (pos - c)).map (fun ch => if ch = '\n' then ' ' else ch)
          ++ (if pos + (pyStrip kw).length + c < text.length then ellipsisMarker
              else []) := by
  simp only [search_keyword] at h
  by_cases hemp : (pyStrip kw).isEmpty
  · rw [if_pos hemp] at h
    exact absurd h (List.not_mem_nil res)
  · rw [if_neg hemp] at h
    obtain ⟨r, hr, hmk⟩ := List.mem_filterMap.mp h
    rcases hfind : pyFindCI (pyStrip kw) r.text_content with _ | pos
    · rw [hfind] at hmk
      exact absurd hmk (by simp)
    · rw [hfind] at hmk
      obtain rfl := Option.some.inj hmk
      obtain ⟨hle, hpre⟩ := pyFindCI_some (pyStrip kw) r.text_content pos hfind
      have hklen := ciIsPrefix_length (pyStrip kw) (r.text_content.drop pos) hpre
      rw [List.length_drop] at hklen
      refine ⟨buildSnippet_length _ _ _ _, buildSnippet_no_newline _ _ _ _,
        r.text_content, pos, by omega, ?_⟩
      exact buildSnippet_eq_window r.text_content pos (pyStrip kw).length c

/-- C7 witness: the single "baz" result on the two-page example text. -/
theorem search_snippet_bounds_witness :
    bazResult.snippet.length ≤ 2 * 80 + (pyStrip "baz".data).length + 6
    ∧ '\n' ∉ bazResult.snippet
    ∧ ∃ (text : List Char) (pos : Nat),
        pos + (pyStrip "baz".data).length ≤ text.length
        ∧ bazResult.snippet =
          (if 80 < pos then ellipsisMarker else [])
          ++ ((text.take (min text.length (pos + (pyStrip "baz".data).length + 80))).drop
              (pos - 80)).map (fun ch => if ch = '\n' then ' ' else ch)
          ++ (if pos + (pyStrip "baz".data).length + 80 < text.length
              then ellipsisMarker else []) :=
  search_snippet_bounds exampleDb "baz".data 20 80 bazResult (by decide)

/-! ## C4 — search completeness under the storage pre-filter -/

theorem lowerNat_bridge (a b : Nat) (ha : a < 128)
    (h : sqliteLowerNat a = sqliteLowerNat b) : pyLowerNat a = pyLowerNat b := by
  unfold sqliteLowerNat at h
  unfold pyLowerNat
  split_ifs at h ⊢ <;> omega

theorem charEq_bridge (k c : Char) (hk : k.toNat < 128)
    (h : sqliteCharEq k c = true) : pyCharEqCI k c = true := by
  unfold sqliteCharEq at h
  unfold pyCharEqCI
  exact decide_eq_true (lowerNat_bridge k.toNat c.toNat hk (of_decide_eq_true h))

theorem ciIsPrefix_of_sql (kw : List Char) (hk : ∀ ch ∈ kw, ch.toNat < 128) :
    ∀ u, sqlCiIsPrefix kw u = true → ciIsPrefix kw u = true := by
  induction kw with
  | nil => intro u _; rfl
  | cons k ks ih =>
    intro u h
    cases u with
    | nil => simp [sqlCiIsPrefix] at h
    | cons c cs =>
      simp only [sqlCiIsPrefix, Bool.and_eq_true] at h
      simp only [ciIsPrefix, Bool.and_eq_true]
      exact ⟨charEq_bridge k c (hk k (by simp)) h.1,
        ih (fun ch hch => hk ch (by simp [hch])) cs h.2⟩

theorem sqlCiIsPrefix_length : ∀ (kw u : List Char),
    sqlCiIsPrefix kw u = true → kw.length ≤ u.length
  | [], u, _ => by simp
  | _ :: _, [], h => by simp [sqlCiIsPrefix] at h
  | k :: ks, c :: cs, h => by
    simp only [sqlCiIsPrefix, Bool.and_eq_true] at h
    have := sqlCiIsPrefix_length ks cs h.2
    simp only [List.length_cons]
    omega

theorem filter_filter_comp {α : Type} (p q : α → Bool) (l : List α) :
    (l.filter p).filter q = l.filter (fun a => p a && q a) := by
  induction l with
  | nil => rfl
  | cons x xs ih =>
    by_cases hp : p x
    · by_cases hq : q x
      · simp [List.filter_cons, hp, hq, ih]
      · simp [List.filter_cons, hp, hq, ih]
    · simp [List.filter_cons, hp, ih]

theorem mem_take_succ {α : Type} (l : List α) (m : Nat) (r : α)
    (h : r ∈ l.take m) : r ∈ l.take (m + 1) := by
  have he : (l.take (m + 1)).take m = l.take m := by
    rw [List.take_take]
    congr 1
    omega
  rw [← he] at h
  exact List.mem_of_mem_take h

theorem mem_take_filter_of_mem_take {α : Type} (p : α → Bool) :
    ∀ (l : List α) (limit : Nat) (r : α), r ∈ l.take limit → p r = true →
      r ∈ (l.filter p).take limit := by
  intro l
  induction l with
  | nil => intro limit r hr _; simp at hr
  | cons x xs ih =>
    intro limit r hr hp
    cases limit with
    | zero => simp at hr
    | succ m =>
      rw [List.take_succ_cons] at hr
      rcases List.mem_cons.mp hr with rfl | hr2
      · rw [List.filter_cons_of_pos hp, List.take_succ_cons]
        exact List.mem_cons_self _ _
      · by_cases hx : p x
        · rw [List.filter_cons_of_pos hx, List.take_succ_cons]
          exact List.mem_cons_of_mem _ (ih m r hr2 hp)
        · rw [List.filter_cons_of_neg hx]
          exact mem_take_succ _ m r (ih m r hr2 hp)

theorem likeMatch_wildcardfree_append (kw : List Char)
    (hw : ∀ ch ∈ kw, ch ≠ '%' ∧ ch ≠ '_') :
    ∀ u, likeMatch (kw ++ ['%']) u = sqlCiIsPrefix kw u := by
  induction kw with
  | nil =>
    intro u
    have : likeMatch (([] : List Char) ++ ['%']) u = true := by
      simp only [List.nil_append, likeMatch, if_pos rfl, if_true]
      rw [List.any_eq_true]
      exact ⟨u.length, List.mem_range.mpr (by omega),
        by simp [likeMatch, List.drop_length]⟩
    rw [this]
    rfl
  | cons k ks ih =>
    intro u
    have hk := hw k (by simp)
    cases u with
    | nil =>
      simp only [List.cons_append, likeMatch, if_neg hk.1]
      rfl
    | cons c cs =>
      simp only [List.cons_append, likeMatch, if_neg hk.1, sqlCiIsPrefix,
        List.append_eq]
      rw [if_neg hk.2, ih (fun ch hch => hw ch (by simp [hch])) cs]

theorem likeContains_iff (kw t : List Char)
    (hw : ∀ ch ∈ kw, ch ≠ '%' ∧ ch ≠ '_') :
    likeContains kw t = true ↔ ∃ k, k ≤ t.length ∧ sqlCiIsPrefix kw (t.drop k) = true := by
  unfold likeContains
  simp only [likeMatch, if_pos rfl, if_true]
  rw [List.any_eq_true]
  constructor
  · rintro ⟨k, hk, hm⟩
    rw [likeMatch_wildcardfree_append kw hw] at hm
    exact ⟨k, by have := List.mem_range.mp hk; omega, hm⟩
  · rintro ⟨k, hk, hm⟩
    refine ⟨k, List.mem_range.mpr (by omega), ?_⟩
    rw [likeMatch_wildcardfree_append kw hw]
    exact hm

theorem pyFindCI_isSome_iff (kw : List Char) : ∀ (t : List Char),
    (pyFindCI kw t).isSome = true
    ↔ ∃ k, k ≤ t.length ∧ ciIsPrefix kw (t.drop k) = true := by
  intro t
  induction t with
  | nil =>
    by_cases hp : ciIsPrefix kw []
    · simp only [pyFindCI, if_pos hp]
      exact ⟨fun _ => ⟨0, by simp, hp⟩, fun _ => rfl⟩
    · simp only [pyFindCI, if_neg hp]
      constructor
      · intro h
        exact absurd h (by simp)
      · rintro ⟨k, hk, hm⟩
        rw [List.drop_nil] at hm
        exact absurd hm hp
  | cons c t2 ih =>
    by_cases hp : ciIsPrefix kw (c :: t2)
    · simp only [pyFindCI, if_pos hp]
      exact ⟨fun _ => ⟨0, by simp, hp⟩, fun _ => rfl⟩
    · simp only [pyFindCI, if_neg hp]
      have hmap : (Option.map (fun x => x + 1) (pyFindCI kw t2)).isSome
          = (pyFindCI kw t2).isSome := by
        cases pyFindCI kw t2 <;> rfl
      rw [hmap, ih]
      constructor
      · rintro ⟨k, hk, hm⟩
        refine ⟨k + 1, by simp; omega, by simpa using hm⟩
      · rintro ⟨k, hk, hm⟩
        cases k with
        | zero => exact absurd (by simpa using hm) hp
        | succ j =>
          refine ⟨j, by simp at hk; omega, by simpa using hm⟩

/-- C4 (amended): for a keyword whose stripped form is non-empty, all-ASCII
and free of the LIKE wildcards `%`/`_`, every record within the first
`limit` case-insensitive matches (newest first) whose own containment of
the keyword is witnessed under ASCII-only case folding — in particular
every matching all-ASCII text — yields a search result.  The restrictions
are forced: SQLite `LIKE` folds case only for ASCII, so a match that needs
a non-ASCII fold — keyword "café" against stored "CAFÉ", or keyword "k"
against the stored KELVIN SIGN U+212A, whose Python lowercase is the ASCII
k — passes the Python scan but is dropped by the pre-filter, a false
negative; and a `%`/`_` in the keyword widens the pre-filter, letting
non-matching rows consume the `LIMIT`. -/
theorem search_prefilter_no_false_negatives (db : Index) (kw : List Char)
    (limit c : Nat) (r : DocumentRecord)
    (hsorted : orderByCreatedDesc db = db)
    (hkw : ∀ ch ∈ pyStrip kw, ch.toNat < 128 ∧ ch ≠ '%' ∧ ch ≠ '_')
    (hne : pyStrip kw ≠ [])
    (hr : r ∈ (db.filter
      (fun x => (pyFindCI (pyStrip kw) x.text_content).isSome)).take limit)
    (hmatch : ∃ i, sqlCiIsPrefix (pyStrip kw) (r.text_content.drop i) = true) :
    ∃ res ∈ search_keyword db kw limit c,
      res.file_path = r.file_path ∧ res.keyword = pyStrip kw := by
  have hwild : ∀ ch ∈ pyStrip kw, ch ≠ '%' ∧ ch ≠ '_' :=
    fun ch hch => ⟨(hkw ch hch).2.1, (hkw ch hch).2.2⟩
  have hascii : ∀ ch ∈ pyStrip kw, ch.toNat < 128 :=
    fun ch hch => (hkw ch hch).1
  have hkwpos : 0 < (pyStrip kw).length := by
    cases hkw0 : pyStrip kw
    · exact absurd hkw0 hne
    · simp
  have hlike : likeContains (pyStrip kw) r.text_content = true := by
    rw [likeContains_iff _ _ hwild]
    obtain ⟨i, hi⟩ := hmatch
    have hlen := sqlCiIsPrefix_length _ _ hi
    rw [List.length_drop] at hlen
    exact ⟨i, by omega, hi⟩
  have himp : ∀ x : DocumentRecord,
      likeContains (pyStrip kw) x.text_content = true →
      (pyFindCI (pyStrip kw) x.text_content).isSome = true := by
    intro x hx
    rw [likeContains_iff _ _ hwild] at hx
    obtain ⟨k, hk, hm⟩ := hx
    rw [pyFindCI_isSome_iff]
    exact ⟨k, hk, ciIsPrefix_of_sql _ hascii _ hm⟩
  have hfeq : (db.filter
        (fun x => (pyFindCI (pyStrip kw) x.text_content).isSome)).filter
          (fun x => likeContains (pyStrip kw) x.text_content)
      = db.filter (fun x => likeContains (pyStrip kw) x.text_content) := by
    rw [filter_filter_comp]
    apply List.filter_congr
    intro x _
    by_cases hx : likeContains (pyStrip kw) x.text_content = true
    · simp [hx, himp x hx]
    · rw [Bool.not_eq_true] at hx
      simp [hx]
  have hne2 : (pyStrip kw).isEmpty = false := by simp [hne]
  have hr2 : r ∈ ((orderByCreatedDesc db).filter
      (fun x => likeContains (pyStrip kw) x.text_content)).take limit := by
    rw [hsorted, ← hfeq]
    exact mem_take_filter_of_mem_take _ _ limit r hr hlike
  have hfind : (pyFindCI (pyStrip kw) r.text_content).isSome = true :=
    (List.mem_filter.mp (List.mem_of_mem_take hr)).2
  rcases hfind2 : pyFindCI (pyStrip kw) r.text_content with _ | pos
  · rw [hfind2] at hfind
    exact absurd hfind (by simp)
  · refine ⟨{ file_path := r.file_path,
              page := inferPageNumber r.text_content pos,
              snippet := buildSnippet r.text_content pos (pyStrip kw).length c,
              keyword := pyStrip kw, score := 1 }, ?_, rfl, rfl⟩
    simp only [search_keyword]
    rw [if_neg (by simp [hne2])]
    exact List.mem_filterMap.mpr ⟨r, hr2, by rw [hfind2]⟩

/-- C4 counterexample: the record "CAFÉ" contains the keyword "café"
case-insensitively under Python's case folding and lies within the limit,
yet `search_keyword` returns no result: SQLite `LIKE` does not fold
non-ASCII case, so the pre-filter drops the record — a false negative. -/
theorem search_prefilter_false_negative :
    (pyFindCI (pyStrip "café".data) ("CAFÉ".data)).isSome = true
    ∧ (accentDb.filter
        (fun x => (pyFindCI (pyStrip "café".data) x.text_content).isSome)).take 10
        ≠ []
    ∧ search_keyword accentDb "café".data 10 80 = [] := by
  decide

/-- Supporting fact for the C4 restriction: even an all-ASCII,
wildcard-free keyword has false negatives once the match needs a non-ASCII
fold — the KELVIN SIGN U+212A lowers to the ASCII k in Python, so keyword
"k" matches it case-insensitively, yet SQLite `LIKE` keeps its ASCII-only
folding and the pre-filter drops the record. -/
theorem search_prefilter_false_negative_kelvin :
    (pyFindCI (pyStrip "k".data) [Char.ofNat 0x212A]).isSome = true
    ∧ (kelvinDb.filter
        (fun x => (pyFindCI (pyStrip "k".data) x.text_content).isSome)).take 10
        ≠ []
    ∧ search_keyword kelvinDb "k".data 10 80 = [] := by
  decide

/-- C4 witness: the pre-filter is complete on an ASCII index for keyword
"foo". -/
theorem search_prefilter_no_false_negatives_witness :
    ∃ res ∈ search_keyword asciiDb "foo".data 5 80,
      res.file_path = asciiRecord.file_path ∧ res.keyword = pyStrip "foo".data :=
  search_prefilter_no_false_negatives asciiDb "foo".data 5 80 asciiRecord
    (by decide) (by decide) (by decide) (by decide) ⟨6, by decide⟩

/-! ## C1 — batch isolation (and C5 machinery) -/

theorem needs_of_fresh (cfg : BatchCfg) (f : PdfFile) (db : Index)
    (hfresh : getRecord db f.path = none) :
    (cfg.force
      || needsReindex f (if cfg.force then none else getRecord db f.path)) = true := by
  cases hc : cfg.force
  · simp [hc, hfresh, needsReindex]
  · simp [hc]

theorem processFile_error_of_needs (deps : Deps) (cfg : BatchCfg) (db : Index)
    (f : PdfFile) (e : OcrErr)
    (hneeds : (cfg.force
      || needsReindex f (if cfg.force then none else getRecord db f.path)) = true)
    (hocr : ocr_single_pdf deps f cfg.use_cache cfg.use_ocrmypdf = .error e) :
    processFile deps cfg db f = (db, .failed e.message) := by
  simp [processFile, hneeds, hocr]

theorem processFile_ok_of_fresh (deps : Deps) (cfg : BatchCfg) (db : Index)
    (f : PdfFile) (t : List Char) (p : Nat)
    (hfresh : getRecord db f.path = none)
    (hocr : ocr_single_pdf deps f cfg.use_cache cfg.use_ocrmypdf = .ok (t, p)) :
    processFile deps cfg db f =
      (db ++ [{ file_path := f.path, text_content := t.take 500000,
                page_count := p, created_at := cfg.now,
                file_modified_at := if f.is_file then some f.mtime_ns else none,
                lang := cfg.lang }], .indexed "inserted") := by
  simp [processFile, hocr, index_pdf, hfresh, needsReindex]

theorem batchLoop_append (deps : Deps) (cfg : BatchCfg) :
    ∀ (xs ys : List PdfFile) (st : Index × BatchStats),
    batchLoop deps cfg st (xs ++ ys)
      = batchLoop deps cfg (batchLoop deps cfg st xs) ys := by
  intro xs
  induction xs with
  | nil => intro ys st; rfl
  | cons f rest ih =>
    intro ys st
    rcases st with ⟨db, s⟩
    rcases hpf : processFile deps cfg db f with ⟨db2, o⟩
    simp [batchLoop, hpf, ih]

theorem stepStats_inserted (s : BatchStats) (f : PdfFile) :
    stepStats s f (.indexed "inserted") = { s with indexed := s.indexed + 1 } := by
  have hne : ¬ (("inserted" : String) = "updated") := by decide
  simp [stepStats, hne]

theorem batchLoop_ok_fresh (deps : Deps) (cfg : BatchCfg) :
    ∀ (xs : List PdfFile) (db : Index) (s : BatchStats),
    (∀ f ∈ xs, getRecord db f.path = none) →
    ((xs.map (fun f => f.path)).Nodup) →
    (∀ f ∈ xs, (ocr_single_pdf deps f cfg.use_cache cfg.use_ocrmypdf).isOk = true) →
    (batchLoop deps cfg (db, s) xs).2 = { s with indexed := s.indexed + xs.length }
    ∧ (∀ q, q ∉ xs.map (fun f => f.path) →
        getRecord (batchLoop deps cfg (db, s) xs).1 q = getRecord db q) := by
  intro xs
  induction xs with
  | nil =>
    intro db s _ _ _
    exact ⟨by simp [batchLoop], fun q _ => rfl⟩
  | cons f rest ih =>
    intro db s hfresh hnodup hok
    have hf : getRecord db f.path = none := hfresh f (by simp)
    have hokf := hok f (by simp)
    rcases hocr : ocr_single_pdf deps f cfg.use_cache cfg.use_ocrmypdf with e | v
    · rw [hocr] at hokf
      simp [Except.isOk, Except.toBool] at hokf
    · rcases v with ⟨t, p⟩
      have hpf := processFile_ok_of_fresh deps cfg db f t p hf hocr
      have hstep : batchLoop deps cfg (db, s) (f :: rest)
          = batchLoop deps cfg
              (db ++ [{ file_path := f.path, text_content := t.take 500000,
                        page_count := p, created_at := cfg.now,
                        file_modified_at := if f.is_file then some f.mtime_ns else none,
                        lang := cfg.lang }],
               { s with indexed := s.indexed + 1 }) rest := by
        simp [batchLoop, hpf, stepStats_inserted]
      rw [List.map_cons] at hnodup
      have hcons := List.nodup_cons.mp hnodup
      have hfresh2 : ∀ g ∈ rest,
          getRecord (db ++ [{ file_path := f.path, text_content := t.take 500000,
                              page_count := p, created_at := cfg.now,
                              file_modified_at := if f.is_file then some f.mtime_ns else none,
                              lang := cfg.lang }]) g.path = none := by
        intro g hg
        have hgne : ¬ (f.path = g.path) := by
          intro he
          exact hcons.1 (he ▸ List.mem_map_of_mem (fun x => x.path) hg)
        rw [getRecord_append, hfresh g (by simp [hg])]
        simp [getRecord, hgne]
      obtain ⟨ih1, ih2⟩ := ih _ { s with indexed := s.indexed + 1 } hfresh2
        hcons.2 (fun g hg => hok g (by simp [hg]))
      constructor
      · rw [hstep, ih1]
        congr 1
        simp only [List.length_cons]
        omega
      · intro q hq
        have hq1 : q ∉ rest.map (fun f => f.path) := fun hmem => hq (by simp [hmem])
        have hq2 : ¬ (f.path = q) := fun he => hq (by simp [← he])
        rw [hstep, ih2 q hq1, getRecord_append]
        simp [getRecord, hq2]

theorem batchLoop_one_error (deps : Deps) (cfg : BatchCfg)
    (pre post : List PdfFile) (fk : PdfFile) (e : OcrErr) (db : Index)
    (s : BatchStats)
    (hfresh : ∀ f ∈ pre ++ fk :: post, getRecord db f.path = none)
    (hnodup : ((pre ++ fk :: post).map (fun f => f.path)).Nodup)
    (hok : ∀ f ∈ pre ++ post,
      (ocr_single_pdf deps f cfg.use_cache cfg.use_ocrmypdf).isOk = true)
    (hbad : ocr_single_pdf deps fk cfg.use_cache cfg.use_ocrmypdf = .error e) :
    (batchLoop deps cfg (db, s) (pre ++ fk :: post)).2
      = { s with indexed := s.indexed + (pre.length + post.length),
                 errors := s.errors ++ [(fk.path, e.message)] } := by
  have hnd := hnodup
  rw [List.map_append, List.map_cons] at hnd
  obtain ⟨hndPre, hndCons, hdisj⟩ := List.nodup_append.mp hnd
  obtain ⟨hfkPost, hndPost⟩ := List.nodup_cons.mp hndCons
  rw [batchLoop_append deps cfg pre (fk :: post) _]
  obtain ⟨hA1, hA2⟩ := batchLoop_ok_fresh deps cfg pre db s
    (fun f hf => hfresh f (by simp [hf])) hndPre
    (fun f hf => hok f (by simp [hf]))
  have hL : batchLoop deps cfg (db, s) pre
      = ((batchLoop deps cfg (db, s) pre).1,
         { s with indexed := s.indexed + pre.length }) :=
    Prod.ext rfl hA1
  have hfknotpre : fk.path ∉ pre.map (fun f => f.path) := by
    intro hmem
    exact hdisj hmem (by simp)
  have hfk_fresh : getRecord (batchLoop deps cfg (db, s) pre).1 fk.path = none := by
    rw [hA2 fk.path hfknotpre]
    exact hfresh fk (by simp)
  have hpfk := processFile_error_of_needs deps cfg _ fk e
    (needs_of_fresh cfg fk _ hfk_fresh) hbad
  rw [hL]
  have hstep : batchLoop deps cfg ((batchLoop deps cfg (db, s) pre).1,
        { s with indexed := s.indexed + pre.length }) (fk :: post)
      = batchLoop deps cfg ((batchLoop deps cfg (db, s) pre).1,
          { s with indexed := s.indexed + pre.length,
                   errors := s.errors ++ [(fk.path, e.message)] }) post := by
    simp [batchLoop, hpfk, stepStats]
  rw [hstep]
  have hfresh3 : ∀ g ∈ post,
      getRecord (batchLoop deps cfg (db, s) pre).1 g.path = none := by
    intro g hg
    have hgnotpre : g.path ∉ pre.map (fun f => f.path) := by
      intro hmem
      exact hdisj hmem (by simp [List.mem_map_of_mem (fun x => x.path) hg])
    rw [hA2 g.path hgnotpre]
    exact hfresh g (by simp [hg])
  obtain ⟨hB1, _⟩ := batchLoop_ok_fresh deps cfg post
    ((batchLoop deps cfg (db, s) pre).1)
    { s with indexed := s.indexed + pre.length,
             errors := s.errors ++ [(fk.path, e.message)] }
    hfresh3 hndPost (fun g hg => hok g (by simp [hg]))
  rw [hB1]
  congr 1
  show s.indexed + pre.length + post.length = s.indexed + (pre.length + post.length)
  omega

/-- C1: over a folder of `N = len(pre) + 1 + len(post)` fresh, distinct PDF
files of which exactly the one file `fk` fails during OCR, the batch catches
the per-file exception, reports `indexed = N - 1`, records exactly one error
entry carrying the failing file fk path and error text, processes all remaining files,
and returns normally (in this total model no exception can escape the
loop). -/
theorem batch_isolation (deps : Deps) (cfg : BatchCfg) (db : Index)
    (pre post : List PdfFile) (fk : PdfFile) (e : OcrErr)
    (hfresh : ∀ f ∈ pre ++ fk :: post, getRecord db f.path = none)
    (hnodup : ((pre ++ fk :: post).map (fun f => f.path)).Nodup)
    (hok : ∀ f ∈ pre ++ post,
      (ocr_single_pdf deps f cfg.use_cache cfg.use_ocrmypdf).isOk = true)
    (hbad : ocr_single_pdf deps fk cfg.use_cache cfg.use_ocrmypdf = .error e) :
    (batch_ocr_folder deps cfg db (pre ++ fk :: post)).2.indexed
      = pre.length + post.length
    ∧ (batch_ocr_folder deps cfg db (pre ++ fk :: post)).2.errors
      = [(fk.path, e.message)]
    ∧ (batch_ocr_folder deps cfg db (pre ++ fk :: post)).2.skipped = 0
    ∧ (batch_ocr_folder deps cfg db (pre ++ fk :: post)).2.total
      = (pre.length + post.length) + 1 := by
  have key := batchLoop_one_error deps cfg pre post fk e db
    { total := (pre ++ fk :: post).length, indexed := 0, skipped := 0,
      updated := 0, errors := [] }
    hfresh hnodup hok hbad
  unfold batch_ocr_folder
  rw [key]
  refine ⟨by simp, by simp, by simp, ?_⟩
  simp [List.length_append]
  omega

/-- C1 witness: three files, the middle one unreadable. -/
theorem batch_isolation_witness :
    (batch_ocr_folder depsAll cfgNoForce []
        ([okFile "a.pdf"] ++ badFile "b.pdf" :: [okFile "c.pdf"])).2.indexed
      = [okFile "a.pdf"].length + [okFile "c.pdf"].length
    ∧ (batch_ocr_folder depsAll cfgNoForce []
        ([okFile "a.pdf"] ++ badFile "b.pdf" :: [okFile "c.pdf"])).2.errors
      = [((badFile "b.pdf").path,
          (OcrErr.fileNotFound ("找不到 PDF 檔案：" ++ "b.pdf")).message)]
    ∧ (batch_ocr_folder depsAll cfgNoForce []
        ([okFile "a.pdf"] ++ badFile "b.pdf" :: [okFile "c.pdf"])).2.skipped = 0
    ∧ (batch_ocr_folder depsAll cfgNoForce []
        ([okFile "a.pdf"] ++ badFile "b.pdf" :: [okFile "c.pdf"])).2.total
      = ([okFile "a.pdf"].length + [okFile "c.pdf"].length) + 1 :=
  batch_isolation depsAll cfgNoForce [] [okFile "a.pdf"] [okFile "c.pdf"]
    (badFile "b.pdf") (OcrErr.fileNotFound ("找不到 PDF 檔案：" ++ "b.pdf"))
    (by decide) (by decide) (by decide) rfl

/-! ## C5 — dependency-failure detection -/

theorem needs_of_force (cfg : BatchCfg) (f : PdfFile) (db : Index)
    (hforce : cfg.force = true) :
    (cfg.force
      || needsReindex f (if cfg.force then none else getRecord db f.path)) = true := by
  simp [hforce]

/-- C5 (amended): a missing dependency is detected at the start of each
`ocr_single_pdf` call — before the cache lookup and before any recognition
work for that file — and surfaced as an ImportError distinct from the
file-not-found error; but `batch_ocr_folder` performs no eager check before
its loop: with the recognition dependency `pytesseract` missing, every
processed file contributes its own per-file error entry (the ImportError is
caught by the per-file handler like a content error) and the batch completes
normally instead of failing fast. -/
theorem dependency_missing_per_file (deps : Deps) (cfg : BatchCfg)
    (db : Index) (files : List PdfFile)
    (hforce : cfg.force = true)
    (hfitz : deps.fitz = true) (htess : deps.pytesseract = false)
    (hfiles : ∀ f ∈ files, f.is_file = true) :
    (batch_ocr_folder deps cfg db files).2.errors
      = files.map (fun f => (f.path, "pytesseract 未安裝"))
    ∧ (batch_ocr_folder deps cfg db files).2.indexed = 0
    ∧ ∀ (f : PdfFile) (uc uo : Bool), f.is_file = true →
        ocr_single_pdf deps f uc uo
          = .error (.importError "pytesseract 未安裝") := by
  have hsingle : ∀ (f : PdfFile) (uc uo : Bool), f.is_file = true →
      ocr_single_pdf deps f uc uo
        = .error (.importError "pytesseract 未安裝") := by
    intro f uc uo hif
    simp [ocr_single_pdf, ensureDependencies, hif, hfitz, htess]
  have key : ∀ (fs : List PdfFile), (∀ f ∈ fs, f.is_file = true) →
      ∀ (db2 : Index) (s : BatchStats),
      (batchLoop deps cfg (db2, s) fs).2.errors
        = s.errors ++ fs.map (fun f => (f.path, "pytesseract 未安裝"))
      ∧ (batchLoop deps cfg (db2, s) fs).2.indexed = s.indexed := by
    intro fs
    induction fs with
    | nil => intro _ db2 s; simp [batchLoop]
    | cons f rest ih =>
      intro hfs db2 s
      have hocr : ocr_single_pdf deps f cfg.use_cache cfg.use_ocrmypdf
          = .error (.importError "pytesseract 未安裝") :=
        hsingle f _ _ (hfs f (by simp))
      have hpf := processFile_error_of_needs deps cfg db2 f _
        (needs_of_force cfg f db2 hforce) hocr
      have hstep : batchLoop deps cfg (db2, s) (f :: rest)
          = batchLoop deps cfg
              (db2, { s with errors := s.errors ++ [(f.path, "pytesseract 未安裝")] })
              rest := by
        simp [batchLoop, hpf, stepStats, OcrErr.message]
      rw [hstep]
      obtain ⟨ih1, ih2⟩ := ih (fun g hg => hfs g (by simp [hg])) db2
        { s with errors := s.errors ++ [(f.path, "pytesseract 未安裝")] }
      refine ⟨?_, ?_⟩
      · rw [ih1]
        simp
      · rw [ih2]
  obtain ⟨k1, k2⟩ := key files hfiles db
    { total := files.length, indexed := 0, skipped := 0, updated := 0,
      errors := [] }
  unfold batch_ocr_folder
  exact ⟨by rw [k1]; simp, by rw [k2], hsingle⟩

/-- C5 counterexample: with the recognition dependency missing, a fresh
two-file batch does not fail fast and does not surface one distinct
dependency signal: the loop records one error entry per file and the batch
returns normally — refuting eager, distinct batch-level detection. -/
theorem dependency_missing_not_failfast :
    (batch_ocr_folder depsNoTess cfgNoForce []
        [okFile "a.pdf", okFile "b.pdf"]).2.errors
      = [("a.pdf", "pytesseract 未安裝"), ("b.pdf", "pytesseract 未安裝")]
    ∧ (batch_ocr_folder depsNoTess cfgNoForce []
        [okFile "a.pdf", okFile "b.pdf"]).2.errors.length = 2 := by
  decide

/-- C5 witness: the amended per-file behaviour at a concrete two-file
forced batch. -/
theorem dependency_missing_per_file_witness :
    (batch_ocr_folder depsNoTess cfgForce []
        [okFile "a.pdf", okFile "b.pdf"]).2.errors
      = [okFile "a.pdf", okFile "b.pdf"].map
          (fun f => (f.path, "pytesseract 未安裝"))
    ∧ (batch_ocr_folder depsNoTess cfgForce []
        [okFile "a.pdf", okFile "b.pdf"]).2.indexed = 0
    ∧ ocr_single_pdf depsNoTess (okFile "a.pdf") true true
        = .error (.importError "pytesseract 未安裝") :=
  have h := dependency_missing_per_file depsNoTess cfgForce []
    [okFile "a.pdf", okFile "b.pdf"] rfl rfl rfl (by decide)
  ⟨h.1, h.2.1, h.2.2 (okFile "a.pdf") true true rfl⟩
